import Mathlib

/-!
Verification development for the png-font text layout and compositing engine
(src/js/pngfont.js).  JavaScript strings are modelled as lists of UTF-16 code
units (natural numbers below 2^16); JavaScript numbers appearing in the layout
pipeline are modelled as natural numbers, which is exact for the integer
arithmetic the code performs.  Canvas contexts and offscreen buffers are
modelled as records carrying their dimensions together with the ordered list
of drawing operations issued against them.
-/

namespace PngFont

/-- Engine configuration: the fields of the `png_font` object set by `setup`
(`charWidth`, `charHeight`, `ANSICharWidth`, `charsInRow`, `charMap`).
`charMap`, when present, is a string (list of UTF-16 units). -/
structure Config where
  charWidth : Nat
  charHeight : Nat
  ANSICharWidth : Nat
  charsInRow : Nat
  charMap : Option (List Nat)
deriving DecidableEq

/-- The default atlas configuration installed by `setup`
(`charWidth = 16, ANSICharWidth = 8, charHeight = 16, charsInRow = 256`, no `charMap`). -/
def cfgA : Config := ⟨16, 16, 8, 256, none⟩

/-- A configuration with a non-default cell height (`charHeight = 8`),
used to separate the fixed `16` pitch from `charHeight`. -/
def cfgB : Config := ⟨16, 8, 8, 256, none⟩

/-- The default configuration with a two-character `charMap` installed. -/
def cfgM : Config := ⟨16, 16, 8, 256, some [104, 105]⟩

/-- Grouping of a UTF-16 code-unit list into JavaScript string-iterator
characters, as performed by `Array.from(str)`: a high surrogate followed by a
low surrogate forms one two-unit character, anything else is a one-unit
character. -/
def arrayFrom : List Nat → List (List Nat)
  | [] => []
  | [u] => [[u]]
  | u :: v :: rest =>
    if 55296 ≤ u ∧ u ≤ 56319 then
      if 56320 ≤ v ∧ v ≤ 57343 then [u, v] :: arrayFrom rest
      else [u] :: arrayFrom (v :: rest)
    else [u] :: arrayFrom (v :: rest)

/-- `s.charCodeAt(0)` for a (nonempty) character produced by `arrayFrom`:
its first UTF-16 code unit. -/
def charCodeAt0 (ch : List Nat) : Nat := ch.headD 0

/-- `png_font.toCharCodeArray`: `Array.from(str).map(i => i.charCodeAt(0))`. -/
def toCharCodeArray (s : List Nat) : List Nat := (arrayFrom s).map charCodeAt0

/-- The Unicode code point encoded by one `arrayFrom` character
(surrogate pair decoding). -/
def decodeChar : List Nat → Nat
  | [u, v] => 65536 + (u - 55296) * 1024 + (v - 56320)
  | u :: _ => u
  | [] => 0

/-- The Unicode code points of a UTF-16 code-unit list. -/
def stringCodePoints (s : List Nat) : List Nat := (arrayFrom s).map decodeChar

/-- UTF-16 encoding of one Unicode scalar value. -/
def encodeChar (c : Nat) : List Nat :=
  if c < 65536 then [c]
  else [55296 + (c - 65536) / 1024, 56320 + (c - 65536) % 1024]

/-- UTF-16 encoding of a list of Unicode scalar values. -/
def encodeUtf16 (cps : List Nat) : List Nat := (cps.map encodeChar).flatten

/-- The first UTF-16 code unit of a scalar value's encoding: the value itself
below 2^16, else the leading (high) surrogate. -/
def leadSurrogate (c : Nat) : Nat :=
  if c < 65536 then c else 55296 + (c - 65536) / 1024

/-- A valid Unicode scalar value: in range and not a surrogate. -/
def ValidScalar (c : Nat) : Prop := c < 1114112 ∧ ¬(55296 ≤ c ∧ c ≤ 57343)

/-- `png_font.getCharWidthFromCharCode`: narrow (`ANSICharWidth`) below
`32 * 256`, else the full `charWidth`. -/
def getCharWidthFromCharCode (cfg : Config) (chr : Nat) : Nat :=
  if chr < 32 * 256 then cfg.ANSICharWidth else cfg.charWidth

/-- `png_font.getTextWidth`: sum of per-character widths of the decoded
codepoint sequence, times `size`. -/
def getTextWidth (cfg : Config) (text : List Nat) (size : Nat) : Nat :=
  ((toCharCodeArray text).map (getCharWidthFromCharCode cfg)).sum * size

/-- `png_font.getHeight`: `size * charHeight`. -/
def getHeight (cfg : Config) (size : Nat) : Nat := size * cfg.charHeight

/-- JavaScript truthiness of the `charMap` field (`if (this.charMap)`):
absent (`null`) and the empty string are falsy. -/
def charMapTruthy : Option (List Nat) → Bool
  | none => false
  | some m => !m.isEmpty

/-- `png_font.getCharPosition`: looks the character up in `charMap` when that
is truthy (`-1` modelled as `none`), otherwise uses the raw code as index;
unknown characters map to `(0, 0)`.  `String.fromCharCode` reduces the code
modulo 2^16 for the lookup. -/
def getCharPosition (cfg : Config) (charCode : Nat) : Nat × Nat :=
  let chr := charCode % 65536
  let index : Option Nat :=
    if charMapTruthy cfg.charMap then
      match cfg.charMap with
      | some m => if chr ∈ m then some (m.indexOf chr) else none
      | none => none
    else some charCode
  match index with
  | none => (0, 0)
  | some idx => (cfg.charWidth * (idx % cfg.charsInRow), cfg.charHeight * (idx / cfg.charsInRow))

/-! ## The word wrapper (`png_font.wrapText`) -/

/-- The result of `wrapText`: the code returns a 2-element array
`[wrapped2DArray, missing]` on the two early-exit paths and a 4-element array
`[wrapped2DArray, missing, maxWidth, (line + 1) * getHeight(size)]` when the
sentinel is consumed without early exit. -/
inductive WrapResult where
  | early (lines : List (List Nat)) (missing : List Nat)
  | full (lines : List (List Nat)) (missing : List Nat) (maxWidth : Nat) (usedHeight : Nat)
deriving DecidableEq

/-- The `lines` component of a `WrapResult`. -/
def WrapResult.linesOf : WrapResult → List (List Nat)
  | .early l _ => l
  | .full l _ _ _ => l

/-- The `missing` component of a `WrapResult`. -/
def WrapResult.missingOf : WrapResult → List Nat
  | .early _ m => m
  | .full _ m _ _ => m

/-- The loop state of `wrapText`: the output array `wrapped2DArray`, the
accumulated line width `width`, the current line index `line`, the current
word buffer `word` with its width `wordWidth`, and the running `maxWidth`. -/
structure WState where
  lines : List (List Nat)
  width : Nat
  line : Nat
  word : List Nat
  wordWidth : Nat
  maxW : Nat
deriving DecidableEq

/-- Structural invariant of the wrap loop: the current line index addresses
the last element of `wrapped2DArray`. -/
def WInv (st : WState) : Prop := st.line + 1 = st.lines.length

/-- The nested `missingText` helper of `wrapText`: flatten the placed
codepoints, decode them with `String.fromCharCode` (one code unit per entry,
so the decoded string's length is the flattened list's length) and return the
suffix of the original `text` beyond that length. -/
def missingText (text : List Nat) (utf82DArray : List (List Nat)) : List Nat :=
  text.drop utf82DArray.flatten.length

/-- The delimiter-handling block of `wrapText` (executed when the scanned slot
is a space, the end sentinel, or a line feed): either an early return
(`Sum.inl`, the 2-element result) or the state in which scanning continues
(`Sum.inr`).  `spaceWidth` is the fixed `8 * size`. -/
def handleDelimiter (cfg : Config) (text : List Nat) (w0 w1 size : Nat) (isLF : Bool)
    (st : WState) : WrapResult ⊕ WState :=
  if st.width + st.wordWidth < w0 then
    let lines1 := st.lines.set st.line ((st.lines.getD st.line []) ++ st.word ++ [32])
    if isLF then
      if (st.line + 1) * 16 * size ≥ w1 then
        Sum.inl (WrapResult.early lines1 (missingText text lines1))
      else
        Sum.inr ⟨(lines1 ++ [[]]).set (st.line + 1) [], st.wordWidth + 8 * size,
          st.line + 1, [], 0, st.maxW⟩
    else
      Sum.inr ⟨lines1, st.width + st.wordWidth + 8 * size, st.line, [], 0, st.maxW⟩
  else
    if (st.line + 1 + 1) * cfg.charWidth * size ≥ w1 then
      Sum.inl (WrapResult.early st.lines (missingText text st.lines))
    else
      let lines1 := (st.lines ++ [[]]).set (st.line + 1) []
      let lines2 := lines1.set (st.line + 1) ((lines1.getD (st.line + 1) []) ++ st.word ++ [32])
      Sum.inr ⟨lines2, st.wordWidth + 8 * size, st.line + 1, [], 0, st.maxW⟩

/-- Word-character test of the loop: the slot is an in-range codepoint that is
neither a space (32) nor a line feed (10); the end sentinel (`none`) is a
delimiter. -/
def isWordChar : Option Nat → Bool
  | some c => c ≠ 32 && c ≠ 10
  | none => false

/-- Accumulating a word character: extend the word buffer and add the scaled
character width to `wordWidth`. -/
def stepChar (cfg : Config) (size c : Nat) (st : WState) : WState :=
  { st with word := st.word ++ [c],
            wordWidth := st.wordWidth + getCharWidthFromCharCode cfg c * size }

/-- The trailing `maxWidth` update of each loop iteration. -/
def updMax (st : WState) : WState :=
  if st.maxW < st.width then { st with maxW := st.width } else st

/-- The scanning loop of `wrapText` over the sentinel-terminated slot list
(`textUTF8Array[i]` for `i = 0 .. length`, the out-of-range access modelled as
`none`). -/
def wrapLoop (cfg : Config) (text : List Nat) (w0 w1 size : Nat) :
    WState → List (Option Nat) → WrapResult
  | st, [] => WrapResult.full st.lines [] st.maxW ((st.line + 1) * getHeight cfg size)
  | st, slot :: rest =>
    if isWordChar slot then
      wrapLoop cfg text w0 w1 size (updMax (stepChar cfg size (slot.getD 0) st)) rest
    else
      match handleDelimiter cfg text w0 w1 size (slot == some 10) st with
      | Sum.inl r => r
      | Sum.inr st2 => wrapLoop cfg text w0 w1 size (updMax st2) rest

/-- The body of `wrapText` after the memoization check, run on a decoded
codepoint array `utf8` (while `missingText` slices the raw `text`). -/
def wrapCore (cfg : Config) (utf8 text : List Nat) (w0 w1 size : Nat) : WrapResult :=
  wrapLoop cfg text w0 w1 size ⟨[[]], 0, 0, [], 0, 0⟩ (utf8.map some ++ [none])

/-- `wrapText` as computed on a fresh engine: the codepoint array is decoded
from the text itself. -/
def wrapTextPure (cfg : Config) (text : List Nat) (w0 w1 size : Nat) : WrapResult :=
  wrapCore cfg (toCharCodeArray text) text w0 w1 size

/-- The cross-call state of the engine relevant to `wrapText`: the memoized
last-wrapped text (`textDrawn`, initially the array `[]`, which is never
strictly equal to a string, modelled as `none`) and its decoded codepoint
array `textUTF8Array`. -/
structure Engine where
  textDrawn : Option (List Nat)
  textUTF8Array : List Nat
deriving DecidableEq

/-- The engine state before any call. -/
def initEngine : Engine := ⟨none, []⟩

/-- The stateful `png_font.wrapText`: re-decode the text only when it differs
from the memoized one, then run the wrap loop; returns the result together
with the updated engine state. -/
def wrapText (cfg : Config) (e : Engine) (text : List Nat) (w0 w1 size : Nat) :
    WrapResult × Engine :=
  let e2 := if e.textDrawn = some text then e else ⟨some text, toCharCodeArray text⟩
  (wrapCore cfg e2.textUTF8Array text w0 w1 size, e2)

/-- The coherence invariant of the engine's memoization: whenever a text is
memoized, the stored codepoint array is its decoding. -/
def EngineInv (e : Engine) : Prop :=
  ∀ t, e.textDrawn = some t → e.textUTF8Array = toCharCodeArray t

/-- Run a sequence of `wrapText` calls (text, box width, box height, size)
against an engine state, keeping only the final state. -/
def runCalls (cfg : Config) : Engine → List (List Nat × Nat × Nat × Nat) → Engine
  | e, [] => e
  | e, (t, w0, w1, s) :: rest => runCalls cfg (wrapText cfg e t w0 w1 s).2 rest

/-! ## The compositing pipeline (`drawTextCanvas`, `drawTextShadow`, `drawText`) -/

/-- A JavaScript value passed as a color argument: `undefined`, `null`, or an
actual color (payload abstracted as a number). -/
inductive JsColorArg where
  | undefined
  | null
  | color (c : Nat)
deriving DecidableEq

/-- The JavaScript `typeof` of a color argument. -/
def jsTypeof : JsColorArg → String
  | .undefined => "undefined"
  | .null => "object"
  | .color _ => "string"

/-- The guard of the tint step in `drawTextCanvas`:
`typeof color !== 'undefined' || color !== null`. -/
def tintGuard (c : JsColorArg) : Bool :=
  (jsTypeof c != "undefined") || (c != JsColorArg.null)

/-- A drawing operation issued against a canvas context: an atlas-region blit
(`ctx.drawImage(img, sx, sy, sw, sh, dx, dy, dw, dh)`), a `source-in` solid
fill (`fillRect(0, 0, w, h)` after setting `fillStyle`), a direct buffer blit
(`ctx.drawImage(buffer, dx, dy)`), or a scaling buffer blit
(`ctx.drawImage(buffer, dx, dy, dw, dh)`).  Buffer blits carry the source
buffer's dimensions and recorded operations. -/
inductive CanvasOp where
  | drawAtlas (sx sy sw sh dx dy dw dh : Nat)
  | fillRect (color : JsColorArg) (w h : Nat)
  | drawBuffer (width height : Nat) (ops : List CanvasOp) (dx dy : Nat)
  | drawBufferScaled (width height : Nat) (ops : List CanvasOp) (dx dy dw dh : Nat)

/-- The destination position of a drawing operation. -/
def opDest : CanvasOp → Nat × Nat
  | .drawAtlas _ _ _ _ dx dy _ _ => (dx, dy)
  | .fillRect _ _ _ => (0, 0)
  | .drawBuffer _ _ _ dx dy => (dx, dy)
  | .drawBufferScaled _ _ _ dx dy _ _ => (dx, dy)

mutual

/-- All tint colors applied within a drawing operation, recursively through
nested buffer blits, in drawing order. -/
def opTints : CanvasOp → List JsColorArg
  | .drawAtlas _ _ _ _ _ _ _ _ => []
  | .fillRect c _ _ => [c]
  | .drawBuffer _ _ ops _ _ => opsTints ops
  | .drawBufferScaled _ _ ops _ _ _ _ => opsTints ops

/-- All tint colors applied by a list of drawing operations. -/
def opsTints : List CanvasOp → List JsColorArg
  | [] => []
  | o :: rest => opTints o ++ opsTints rest

end

/-- A canvas (context and its backing surface): dimensions plus the ordered
operations drawn onto it. -/
structure Buffer where
  width : Nat
  height : Nat
  ops : List CanvasOp

/-- `png_font.createBufferCanvas`: a fresh buffer of the given size (the
pixel-art styling flags carry no layout content). -/
def createBufferCanvas (w h : Nat) : Buffer := ⟨w, h, []⟩

/-- `png_font.drawChr`: blit the character's `charWidth × charHeight` atlas
cell to `pos` and report the character's resolved width. -/
def drawChr (cfg : Config) (chr : Nat) (pos : Nat × Nat) : CanvasOp × Nat :=
  (CanvasOp.drawAtlas (getCharPosition cfg chr).1 (getCharPosition cfg chr).2
      cfg.charWidth cfg.charHeight pos.1 pos.2 cfg.charWidth cfg.charHeight,
   getCharWidthFromCharCode cfg chr)

/-- The per-character loop of `drawTextCanvas`: draw each character at the
running horizontal cursor `x` (row 0) and accumulate the total width. -/
def charLoop (cfg : Config) : List Nat → Nat → List CanvasOp × Nat
  | [], _ => ([], 0)
  | c :: rest, x =>
    let d := drawChr cfg c (x, 0)
    let r := charLoop cfg rest (x + d.2)
    (d.1 :: r.1, d.2 + r.2)

/-- `png_font.drawTextCanvas`: compose the line into an offscreen buffer
(per-character blits, then the unconditionally guarded `source-in` tint fill),
blit it onto `ctx` at `pos` — through an intermediate nearest-neighbor scaling
buffer unless `size` is `undefined`/`null` (modelled `none`) or `1` — and
return the accumulated unscaled character width. -/
def drawTextCanvas (cfg : Config) (ctx : Buffer) (utf8Array : List Nat) (pos : Nat × Nat)
    (color : JsColorArg) (size : Option Nat) : Buffer × Nat :=
  let width := cfg.charWidth * utf8Array.length
  let height := cfg.charHeight
  let buffer := createBufferCanvas width height
  let loopRes := charLoop cfg utf8Array 0
  let buffer1 : Buffer := { buffer with ops := buffer.ops ++ loopRes.1 }
  let buffer2 : Buffer :=
    if tintGuard color then
      { buffer1 with ops := buffer1.ops ++ [CanvasOp.fillRect color width height] }
    else buffer1
  let ctx2 : Buffer :=
    match size with
    | none =>
      { ctx with ops := ctx.ops ++
          [CanvasOp.drawBuffer buffer2.width buffer2.height buffer2.ops pos.1 pos.2] }
    | some s =>
      if s = 1 then
        { ctx with ops := ctx.ops ++
            [CanvasOp.drawBuffer buffer2.width buffer2.height buffer2.ops pos.1 pos.2] }
      else
        let bufferSize := createBufferCanvas (width * s) (height * s)
        let bSx : Buffer := { bufferSize with ops := bufferSize.ops ++
            [CanvasOp.drawBufferScaled buffer2.width buffer2.height buffer2.ops
              0 0 (width * s) (height * s)] }
        { ctx with ops := ctx.ops ++
            [CanvasOp.drawBuffer bSx.width bSx.height bSx.ops pos.1 pos.2] }
  (ctx2, loopRes.2)

/-- The operations recorded in the offscreen line buffer that `drawTextCanvas`
composes: the per-character atlas blits followed by the (always-guarded)
`source-in` tint fill. -/
def lineBufOps (cfg : Config) (arr : List Nat) (color : JsColorArg) : List CanvasOp :=
  (charLoop cfg arr 0).1 ++
    (if tintGuard color then
      [CanvasOp.fillRect color (cfg.charWidth * arr.length) cfg.charHeight]
    else [])

/-- The single operation `drawTextCanvas` issues against its target context:
a direct blit of the composed line buffer at `pos`, or (when `size` is a
number other than `1`) a blit of the intermediate scaling buffer at `pos`. -/
def dtcOp (cfg : Config) (arr : List Nat) (pos : Nat × Nat) (color : JsColorArg)
    (size : Option Nat) : CanvasOp :=
  match size with
  | none =>
    CanvasOp.drawBuffer (cfg.charWidth * arr.length) cfg.charHeight
      (lineBufOps cfg arr color) pos.1 pos.2
  | some s =>
    if s = 1 then
      CanvasOp.drawBuffer (cfg.charWidth * arr.length) cfg.charHeight
        (lineBufOps cfg arr color) pos.1 pos.2
    else
      CanvasOp.drawBuffer (cfg.charWidth * arr.length * s) (cfg.charHeight * s)
        [CanvasOp.drawBufferScaled (cfg.charWidth * arr.length) cfg.charHeight
          (lineBufOps cfg arr color) 0 0 (cfg.charWidth * arr.length * s) (cfg.charHeight * s)]
        pos.1 pos.2

/-- `png_font.drawTextShadow`: allocate a buffer one pixel larger than
`charWidth * length * size` by `charHeight * size`, draw the line tinted with
`shadowcolor` at `(size, size)`, then tinted with `color` at `(0, 0)`, and
return the buffer together with the unscaled accumulated width plus `size`. -/
def drawTextShadow (cfg : Config) (utf8Array : List Nat) (color : JsColorArg)
    (size : Option Nat) (shadowcolor : JsColorArg) : Buffer × Nat :=
  let size := match size with | none => 1 | some s => s
  let width := cfg.charWidth * utf8Array.length * size
  let height := cfg.charHeight * size
  let buffer := createBufferCanvas (width + 1) (height + 1)
  let p1 := drawTextCanvas cfg buffer utf8Array (size, size) shadowcolor (some size)
  let p2 := drawTextCanvas cfg p1.1 utf8Array (0, 0) color (some size)
  (p2.1, p2.2 + size)

/-- The per-line loop of `png_font.drawText` (after wrapping): line `i` is
drawn either directly at `(pos.x, pos.y + i * 16 * size)` (no shadow) or as a
shadow-composite buffer blitted at `(pos.x, pos.y + i * getHeight(size))`.
`shadow` doubles as the shadow color; `none` models a falsy `shadow`. -/
def drawTextLinesLoop (cfg : Config) (pos : Nat × Nat) (color : JsColorArg) (size : Nat)
    (shadow : Option JsColorArg) : Buffer → Nat → List (List Nat) → Buffer
  | ctx, _, [] => ctx
  | ctx, i, l :: rest =>
    let ctx2 :=
      match shadow with
      | none => (drawTextCanvas cfg ctx l (pos.1, pos.2 + i * 16 * size) color (some size)).1
      | some sc =>
        let b := (drawTextShadow cfg l color (some size) sc).1
        { ctx with ops := ctx.ops ++
            [CanvasOp.drawBuffer b.width b.height b.ops pos.1 (pos.2 + i * getHeight cfg size)] }
    drawTextLinesLoop cfg pos color size shadow ctx2 (i + 1) rest

/-! ## Helper lemmas -/

lemma tintGuard_eq_true (c : JsColorArg) : tintGuard c = true := by
  cases c <;> rfl

lemma arrayFrom_cons_notHigh (u : Nat) (rest : List Nat) (h : ¬(55296 ≤ u ∧ u ≤ 56319)) :
    arrayFrom (u :: rest) = [u] :: arrayFrom rest := by
  cases rest with
  | nil => simp [arrayFrom]
  | cons v r => simp [arrayFrom, h]

lemma arrayFrom_cons_pair (u v : Nat) (rest : List Nat)
    (hu : 55296 ≤ u ∧ u ≤ 56319) (hv : 56320 ≤ v ∧ v ≤ 57343) :
    arrayFrom (u :: v :: rest) = [u, v] :: arrayFrom rest := by
  simp [arrayFrom, hu, hv]

lemma opsTints_append (a b : List CanvasOp) :
    opsTints (a ++ b) = opsTints a ++ opsTints b := by
  induction a with
  | nil => simp [opsTints]
  | cons o rest ih => simp [opsTints, ih]

lemma charLoop_snd (cfg : Config) :
    ∀ (l : List Nat) (x : Nat),
      (charLoop cfg l x).2 = (l.map (getCharWidthFromCharCode cfg)).sum := by
  intro l
  induction l with
  | nil => intro x; rfl
  | cons c rest ih => intro x; simp [charLoop, drawChr, ih]

lemma charLoop_tints (cfg : Config) :
    ∀ (l : List Nat) (x : Nat), opsTints (charLoop cfg l x).1 = [] := by
  intro l
  induction l with
  | nil => intro x; rfl
  | cons c rest ih => intro x; simp [charLoop, drawChr, opsTints, opTints, ih]

lemma lineBufOps_tints (cfg : Config) (arr : List Nat) (color : JsColorArg) :
    opsTints (lineBufOps cfg arr color) = [color] := by
  simp [lineBufOps, tintGuard_eq_true, opsTints_append, charLoop_tints, opsTints, opTints]

lemma dtcOp_dest (cfg : Config) (arr : List Nat) (pos : Nat × Nat) (color : JsColorArg)
    (size : Option Nat) : opDest (dtcOp cfg arr pos color size) = pos := by
  cases size with
  | none => rfl
  | some s =>
    by_cases hs : s = 1 <;> simp [dtcOp, hs, opDest]

lemma dtcOp_tints (cfg : Config) (arr : List Nat) (pos : Nat × Nat) (color : JsColorArg)
    (size : Option Nat) : opTints (dtcOp cfg arr pos color size) = [color] := by
  cases size with
  | none => simp [dtcOp, opTints, lineBufOps_tints]
  | some s =>
    by_cases hs : s = 1 <;>
      simp [dtcOp, hs, opTints, opsTints, lineBufOps_tints]

lemma drawTextCanvas_ops (cfg : Config) (ctx : Buffer) (arr : List Nat) (pos : Nat × Nat)
    (color : JsColorArg) (size : Option Nat) :
    (drawTextCanvas cfg ctx arr pos color size).1 =
      { ctx with ops := ctx.ops ++ [dtcOp cfg arr pos color size] } := by
  cases size with
  | none =>
    simp [drawTextCanvas, dtcOp, lineBufOps, createBufferCanvas, tintGuard_eq_true]
  | some s =>
    by_cases hs : s = 1 <;>
      simp [drawTextCanvas, dtcOp, lineBufOps, createBufferCanvas, tintGuard_eq_true, hs]

lemma drawTextCanvas_snd (cfg : Config) (ctx : Buffer) (arr : List Nat) (pos : Nat × Nat)
    (color : JsColorArg) (size : Option Nat) :
    (drawTextCanvas cfg ctx arr pos color size).2 =
      (arr.map (getCharWidthFromCharCode cfg)).sum := by
  cases size with
  | none => simp [drawTextCanvas, charLoop_snd]
  | some s => by_cases hs : s = 1 <;> simp [drawTextCanvas, charLoop_snd, hs]

lemma handleDelimiter_inl (cfg : Config) (text : List Nat) (w0 w1 size : Nat) (lf : Bool)
    (st : WState) (r : WrapResult)
    (h : handleDelimiter cfg text w0 w1 size lf st = Sum.inl r) :
    ∃ l, r = WrapResult.early l (missingText text l) := by
  simp only [handleDelimiter] at h
  split_ifs at h
  all_goals
    first
      | exact Sum.noConfusion h
      | (injection h with h2; exact ⟨_, h2.symm⟩)

lemma handleDelimiter_inr_inv (cfg : Config) (text : List Nat) (w0 w1 size : Nat) (lf : Bool)
    (st st2 : WState) (hinv : WInv st)
    (h : handleDelimiter cfg text w0 w1 size lf st = Sum.inr st2) : WInv st2 := by
  simp only [handleDelimiter] at h
  split_ifs at h
  all_goals
    first
      | exact Sum.noConfusion h
      | (injection h with h2
         subst h2
         simp only [WInv] at hinv ⊢
         simp only [List.length_set, List.length_append, List.length_cons, List.length_nil]
         omega)

lemma WInv_updMax (st : WState) : WInv (updMax st) ↔ WInv st := by
  unfold updMax
  split <;> exact Iff.rfl

lemma updMax_lines (st : WState) : (updMax st).lines = st.lines := by
  unfold updMax
  split <;> rfl

lemma wrapLoop_full_spec (cfg : Config) (text : List Nat) (w0 w1 size : Nat) :
    ∀ (slots : List (Option Nat)) (st : WState) (L : List (List Nat)) (M : List Nat) (W H : Nat),
      WInv st → wrapLoop cfg text w0 w1 size st slots = WrapResult.full L M W H →
      M = [] ∧ H = L.length * getHeight cfg size := by
  intro slots
  induction slots with
  | nil =>
    intro st L M W H hinv h
    simp only [wrapLoop] at h
    cases h
    exact ⟨rfl, by rw [← hinv]⟩
  | cons slot rest ih =>
    intro st L M W H hinv h
    simp only [wrapLoop] at h
    by_cases hw : isWordChar slot = true
    · rw [if_pos hw] at h
      exact ih (updMax (stepChar cfg size (slot.getD 0) st)) L M W H
        ((WInv_updMax _).mpr hinv) h
    · rw [if_neg hw] at h
      split at h
      next r heq =>
        obtain ⟨l, rfl⟩ := handleDelimiter_inl cfg text w0 w1 size _ st r heq
        exact WrapResult.noConfusion h
      next st2 heq =>
        exact ih _ L M W H
          ((WInv_updMax _).mpr (handleDelimiter_inr_inv cfg text w0 w1 size _ st st2 hinv heq)) h

lemma wrapLoop_early_spec (cfg : Config) (text : List Nat) (w0 w1 size : Nat) :
    ∀ (slots : List (Option Nat)) (st : WState) (L : List (List Nat)) (M : List Nat),
      wrapLoop cfg text w0 w1 size st slots = WrapResult.early L M →
      M = missingText text L := by
  intro slots
  induction slots with
  | nil =>
    intro st L M h
    simp only [wrapLoop] at h
    exact WrapResult.noConfusion h
  | cons slot rest ih =>
    intro st L M h
    simp only [wrapLoop] at h
    by_cases hw : isWordChar slot = true
    · rw [if_pos hw] at h
      exact ih _ L M h
    · rw [if_neg hw] at h
      split at h
      next r heq =>
        obtain ⟨l, rfl⟩ := handleDelimiter_inl cfg text w0 w1 size _ st r heq
        injection h with h1 h2
        subst h1
        exact h2.symm
      next st2 heq =>
        exact ih _ L M h

lemma wrapLoop_zero_box (cfg : Config) (text : List Nat) (size : Nat) :
    ∀ (us : List (Option Nat)) (st : WState), st.lines = [[]] →
      wrapLoop cfg text 0 0 size st (us ++ [none]) =
        WrapResult.early [[]] (missingText text [[]]) := by
  intro us
  induction us with
  | nil =>
    intro st hl
    have hd : handleDelimiter cfg text 0 0 size ((none : Option Nat) == some 10) st =
        Sum.inl (WrapResult.early st.lines (missingText text st.lines)) := by
      simp [handleDelimiter]
    simp only [List.nil_append, wrapLoop]
    rw [if_neg (by simp [isWordChar])]
    rw [hd, hl]
  | cons u us ih =>
    intro st hl
    simp only [List.cons_append, wrapLoop]
    by_cases hw : isWordChar u = true
    · rw [if_pos hw]
      exact ih _ (by rw [updMax_lines]; exact hl)
    · rw [if_neg hw]
      have hd : handleDelimiter cfg text 0 0 size (u == some 10) st =
          Sum.inl (WrapResult.early st.lines (missingText text st.lines)) := by
        simp [handleDelimiter]
      rw [hd, hl]

lemma charCodeAt0_cons (a : Nat) (l : List Nat) : charCodeAt0 (a :: l) = a := rfl

lemma utf16_lead_spec :
    ∀ (cps : List Nat), (∀ c ∈ cps, ValidScalar c) →
      toCharCodeArray (encodeUtf16 cps) = cps.map leadSurrogate := by
  intro cps
  induction cps with
  | nil => intro _; rfl
  | cons c rest ih =>
    intro h
    have hc : ValidScalar c := h c (by simp)
    have hrest : ∀ x ∈ rest, ValidScalar x := fun x hx => h x (by simp [hx])
    obtain ⟨hlt, hsur⟩ := hc
    by_cases hbmp : c < 65536
    · have henc : encodeUtf16 (c :: rest) = c :: encodeUtf16 rest := by
        simp [encodeUtf16, encodeChar, hbmp]
      rw [henc]
      unfold toCharCodeArray
      rw [arrayFrom_cons_notHigh c _ (by omega)]
      simp only [List.map_cons]
      rw [charCodeAt0_cons]
      have h2 : leadSurrogate c = c := by simp [leadSurrogate, hbmp]
      rw [h2]
      exact congrArg (c :: ·) (ih hrest)
    · have henc : encodeUtf16 (c :: rest) =
          (55296 + (c - 65536) / 1024) :: (56320 + (c - 65536) % 1024) :: encodeUtf16 rest := by
        simp [encodeUtf16, encodeChar, hbmp]
      rw [henc]
      unfold toCharCodeArray
      rw [arrayFrom_cons_pair _ _ _ ⟨by omega, by omega⟩ ⟨by omega, by omega⟩]
      simp only [List.map_cons]
      rw [charCodeAt0_cons]
      have h2 : leadSurrogate c = 55296 + (c - 65536) / 1024 := by
        simp [leadSurrogate, hbmp]
      rw [h2]
      exact congrArg ((55296 + (c - 65536) / 1024) :: ·) (ih hrest)

lemma EngineInv_init : EngineInv initEngine := by
  intro t h
  exact Option.noConfusion h

lemma EngineInv_step (cfg : Config) (e : Engine) (text : List Nat) (w0 w1 s : Nat)
    (he : EngineInv e) : EngineInv (wrapText cfg e text w0 w1 s).2 := by
  unfold wrapText
  by_cases hc : e.textDrawn = some text
  · simpa [hc] using he
  · simp only [hc, if_false, if_neg hc]
    intro t ht
    injection ht with ht2
    rw [ht2]

lemma EngineInv_run (cfg : Config) :
    ∀ (calls : List (List Nat × Nat × Nat × Nat)) (e : Engine),
      EngineInv e → EngineInv (runCalls cfg e calls) := by
  intro calls
  induction calls with
  | nil => intro e he; exact he
  | cons c rest ih =>
    intro e he
    obtain ⟨t, w0, w1, s⟩ := c
    exact ih _ (EngineInv_step cfg e t w0 w1 s he)

lemma wrapText_fst (cfg : Config) (e : Engine) (text : List Nat) (w0 w1 s : Nat)
    (he : EngineInv e) :
    (wrapText cfg e text w0 w1 s).1 = wrapTextPure cfg text w0 w1 s := by
  unfold wrapText wrapTextPure
  by_cases hc : e.textDrawn = some text
  · simp only [hc, if_pos rfl, if_true]
    rw [he text hc]
  · simp [hc]

lemma drawTextLinesLoop_none_dests (cfg : Config) (pos : Nat × Nat) (color : JsColorArg)
    (size : Nat) :
    ∀ (lines : List (List Nat)) (ctx : Buffer) (i : Nat),
      ((drawTextLinesLoop cfg pos color size none ctx i lines).ops).map opDest =
        ctx.ops.map opDest ++
          (List.range' i lines.length).map (fun j => (pos.1, pos.2 + j * 16 * size)) := by
  intro lines
  induction lines with
  | nil => intro ctx i; simp [drawTextLinesLoop]
  | cons l rest ih =>
    intro ctx i
    simp only [drawTextLinesLoop]
    rw [ih, drawTextCanvas_ops]
    simp [dtcOp_dest, List.range'_succ]

lemma drawTextLinesLoop_shadow_dests (cfg : Config) (pos : Nat × Nat) (color : JsColorArg)
    (size : Nat) (sc : JsColorArg) :
    ∀ (lines : List (List Nat)) (ctx : Buffer) (i : Nat),
      ((drawTextLinesLoop cfg pos color size (some sc) ctx i lines).ops).map opDest =
        ctx.ops.map opDest ++
          (List.range' i lines.length).map (fun j => (pos.1, pos.2 + j * getHeight cfg size)) := by
  intro lines
  induction lines with
  | nil => intro ctx i; simp [drawTextLinesLoop]
  | cons l rest ih =>
    intro ctx i
    simp only [drawTextLinesLoop]
    rw [ih]
    simp [opDest, List.range'_succ]

/-! ## Claim theorems -/

/-- Claim C1: in the wrap loop's delimiter handling, on the fits branch with a
line-feed delimiter the wrapper stops early exactly when
`(L + 1) * 16 * size ≥ maxHeight` (the advanced line index times the fixed
`16`), and when continuing it resets the new line's accumulated width to
`wordWidth + spaceWidth` (carrying over the just-placed word's width); on the
does-not-fit branch (`width + wordWidth ≥ maxWidth`) it stops early exactly
when `(L + 2) * charWidth * size ≥ maxHeight`, i.e. the advanced index plus
one times `charWidth`, for any delimiter kind. -/
theorem C1_overflow_thresholds (cfg : Config) (text : List Nat) (w0 w1 size : Nat)
    (st : WState) :
    (st.width + st.wordWidth < w0 →
      (((handleDelimiter cfg text w0 w1 size true st).isLeft = true) ↔
          (st.line + 1) * 16 * size ≥ w1)
      ∧ ∀ st2, handleDelimiter cfg text w0 w1 size true st = Sum.inr st2 →
          st2.width = st.wordWidth + 8 * size)
    ∧ (¬ st.width + st.wordWidth < w0 →
        ∀ lf : Bool, ((handleDelimiter cfg text w0 w1 size lf st).isLeft = true) ↔
          (st.line + 1 + 1) * cfg.charWidth * size ≥ w1) := by
  constructor
  · intro hfit
    by_cases hth : (st.line + 1) * 16 * size ≥ w1
    · constructor
      · simp [handleDelimiter, hfit, hth]
      · intro st2 h
        simp [handleDelimiter, hfit, hth] at h
    · constructor
      · simp [handleDelimiter, hfit, hth]
      · intro st2 h
        simp only [handleDelimiter, if_pos hfit, if_pos rfl, if_neg hth] at h
        injection h with h2
        subst h2
        rfl
  · intro hfit lf
    by_cases hth : (st.line + 1 + 1) * cfg.charWidth * size ≥ w1 <;>
      simp [handleDelimiter, hfit, hth]

/-- Witness for C1 at concrete states: a fitting line-feed delimiter at the
exact height bound exits early, and a non-fitting delimiter under an exceeded
bound exits early. -/
theorem C1_overflow_thresholds_witness :
    ((handleDelimiter cfgA [] 100 16 1 true ⟨[[]], 0, 0, [97, 98], 16, 0⟩).isLeft = true)
    ∧ ((handleDelimiter cfgA [] 5 16 1 false ⟨[[]], 10, 0, [], 0, 0⟩).isLeft = true) :=
  ⟨((C1_overflow_thresholds cfgA [] 100 16 1 ⟨[[]], 0, 0, [97, 98], 16, 0⟩).1
      (by decide)).1.mpr (by decide),
   ((C1_overflow_thresholds cfgA [] 5 16 1 ⟨[[]], 10, 0, [], 0, 0⟩).2
      (by decide) false).mpr (by decide)⟩

/-- Counterexample to claim C2 as stated: for `"ab\ncd"` in a box of height 16
the wrapper truncates after the line feed; decoding the placed codepoints
(`"ab "`, with the synthetic trailing space) and appending `missing` (`"cd"`)
yields `"ab cd"`, which is not the original text `"ab\ncd"` — the line-feed
character is lost. -/
theorem C2_counterexample :
    wrapTextPure cfgA [97, 98, 10, 99, 100] 1000 16 1 =
      WrapResult.early [[97, 98, 32]] [99, 100]
    ∧ ([[97, 98, 32]] : List (List Nat)).flatten ++ [99, 100] ≠ [97, 98, 10, 99, 100] := by
  decide

/-- Claim C2 amended: on every early (truncated) wrap result, `missing` is the
suffix of the original text past the number of placed codepoints, so the
original text's prefix of that length concatenated with `missing` is exactly
the original text — nothing dropped, nothing duplicated; the reconstruction
slices the original string rather than re-encoding the placed codepoints. -/
theorem C2_amended (cfg : Config) (text : List Nat) (w0 w1 size : Nat)
    (L : List (List Nat)) (M : List Nat)
    (h : wrapTextPure cfg text w0 w1 size = WrapResult.early L M) :
    List.take L.flatten.length text ++ M = text := by
  have hM : M = missingText text L := by
    unfold wrapTextPure wrapCore at h
    exact wrapLoop_early_spec cfg text w0 w1 size _ _ L M h
  rw [hM, missingText]
  exact List.take_append_drop _ _

/-- Witness for C2's amended statement at the concrete truncated wrap of
`"ab\ncd"`. -/
theorem C2_amended_witness :
    List.take ([[97, 98, 32]] : List (List Nat)).flatten.length [97, 98, 10, 99, 100]
        ++ [99, 100] = [97, 98, 10, 99, 100] :=
  C2_amended cfgA [97, 98, 10, 99, 100] 1000 16 1 [[97, 98, 32]] [99, 100] (by decide)

/-- Claim C3: whenever the sentinel is consumed without early exit (a
4-component result), `missing` is empty and `usedHeight` is the final line
count (final line index plus one) times `getHeight(size)`; in particular
wrapping `"hello world"` in a `1000 × 1000` box at scale 1 yields the single
line `"hello world "` as codepoints with empty `missing`. -/
theorem C3_full_consumption :
    (∀ (cfg : Config) (text : List Nat) (w0 w1 size : Nat) (L : List (List Nat))
        (M : List Nat) (W H : Nat),
      wrapTextPure cfg text w0 w1 size = WrapResult.full L M W H →
      M = [] ∧ H = L.length * getHeight cfg size)
    ∧ wrapTextPure cfgA [104, 101, 108, 108, 111, 32, 119, 111, 114, 108, 100] 1000 1000 1 =
        WrapResult.full [[104, 101, 108, 108, 111, 32, 119, 111, 114, 108, 100, 32]] [] 96 16 := by
  constructor
  · intro cfg text w0 w1 size L M W H h
    unfold wrapTextPure wrapCore at h
    exact wrapLoop_full_spec cfg text w0 w1 size ((toCharCodeArray text).map some ++ [none])
      ⟨[[]], 0, 0, [], 0, 0⟩ L M W H rfl h
  · decide

/-- Witness for C3 at the `"hello world"` scenario: empty `missing` and
`usedHeight = 1 * getHeight(1) = 16`. -/
theorem C3_full_consumption_witness :
    ([] : List Nat) = []
    ∧ (16 : Nat) =
        ([[104, 101, 108, 108, 111, 32, 119, 111, 114, 108, 100, 32]] : List (List Nat)).length *
          getHeight cfgA 1 :=
  C3_full_consumption.1 cfgA [104, 101, 108, 108, 111, 32, 119, 111, 114, 108, 100] 1000 1000 1
    [[104, 101, 108, 108, 111, 32, 119, 111, 114, 108, 100, 32]] [] 96 16 (by decide)

/-- Counterexample to claim C4 as stated: with box height 0 but ample width,
the text `"a"` is consumed entirely on the fits branch (which checks the
height only after a line feed), so the wrapper returns the 4-component result
with the word placed and empty `missing` — not `missing = text` and
`lines = [[]]`. -/
theorem C4_counterexample :
    wrapTextPure cfgA [97] 1000 0 1 = WrapResult.full [[97, 32]] [] 16 16
    ∧ (wrapTextPure cfgA [97] 1000 0 1).missingOf ≠ [97]
    ∧ (wrapTextPure cfgA [97] 1000 0 1).linesOf ≠ [[]] := by
  decide

/-- Claim C4 amended: for every non-empty text and every scale, a box whose
width and height components are both 0 makes the very first delimiter take
the does-not-fit branch and trip the height check, so `wrapText` immediately
returns `missing` equal to the whole original text and `lines = [[]]`. -/
theorem C4_amended (cfg : Config) (size : Nat) (text : List Nat) (h : text ≠ []) :
    wrapTextPure cfg text 0 0 size = WrapResult.early [[]] text := by
  unfold wrapTextPure wrapCore
  have hz := wrapLoop_zero_box cfg text size ((toCharCodeArray text).map some)
    ⟨[[]], 0, 0, [], 0, 0⟩ rfl
  rw [hz]
  simp [missingText]

/-- Witness for C4's amended statement at the concrete text `"a"`. -/
theorem C4_amended_witness : wrapTextPure cfgA [97] 0 0 1 = WrapResult.early [[]] [97] :=
  C4_amended cfgA 1 [97] (by decide)

/-- Counterexample to claim C5 as stated: for the astral character U+1D400
(UTF-16 `[55349, 56320]`), `toCharCodeArray` yields one entry, but that entry
is the leading surrogate 55349 (`charCodeAt(0)`), not the Unicode scalar
value 119808. -/
theorem C5_counterexample :
    toCharCodeArray [55349, 56320] = [55349]
    ∧ stringCodePoints [55349, 56320] = [119808]
    ∧ toCharCodeArray [55349, 56320] ≠ [119808] := by
  decide

/-- Claim C5 amended: for every sequence of valid Unicode scalar values,
`toCharCodeArray` of its UTF-16 encoding has exactly one entry per code point,
and each entry is the code point itself when it is below 2^16 and the leading
(high) surrogate of its UTF-16 encoding otherwise. -/
theorem C5_amended (cps : List Nat) (h : ∀ c ∈ cps, ValidScalar c) :
    toCharCodeArray (encodeUtf16 cps) = cps.map leadSurrogate
    ∧ (toCharCodeArray (encodeUtf16 cps)).length = cps.length := by
  have main := utf16_lead_spec cps h
  exact ⟨main, by rw [main]; simp⟩

/-- Witness for C5's amended statement on `[65, 119808]` (one BMP scalar and
one astral scalar). -/
theorem C5_amended_witness :
    toCharCodeArray (encodeUtf16 [65, 119808]) = List.map leadSurrogate [65, 119808]
    ∧ (toCharCodeArray (encodeUtf16 [65, 119808])).length = ([65, 119808] : List Nat).length :=
  C5_amended [65, 119808] (by intro c hc; fin_cases hc <;> exact ⟨by omega, by omega⟩)

/-- Counterexample to claim C6 as stated: for the line `[65]` at scale 2 the
shadow buffer is `charWidth * length * scale + 1 = 33` pixels wide and
`charHeight * scale + 1 = 33` pixels tall, whereas the claim's formulas give
`measure(line, 1) * scale + scale = 18` and `cellHeight * scale + scale = 34`
— the margin is one pixel, not `scale`, and the width uses the full cell
width, not the measured width. -/
theorem C6_counterexample :
    (drawTextShadow cfgA [65] (JsColorArg.color 0) (some 2) (JsColorArg.color 1)).1.width = 33
    ∧ (drawTextShadow cfgA [65] (JsColorArg.color 0) (some 2) (JsColorArg.color 1)).1.height = 33
    ∧ getTextWidth cfgA [65] 1 = 8
    ∧ (drawTextShadow cfgA [65] (JsColorArg.color 0) (some 2) (JsColorArg.color 1)).1.width ≠
        getTextWidth cfgA [65] 1 * 2 + 2
    ∧ (drawTextShadow cfgA [65] (JsColorArg.color 0) (some 2) (JsColorArg.color 1)).1.height ≠
        cfgA.charHeight * 2 + 2 := by
  decide

/-- Claim C6 amended: for every line, colors and scale, the shadow composite
buffer is `charWidth * length * scale + 1` by `charHeight * scale + 1` (one
pixel larger than the scaled cell bounds, not `scale` larger than the measured
bounds); the shadow pass is drawn at offset `(scale, scale)` before the
foreground pass at `(0, 0)` with the respective tints; and the returned width
is the unscaled sum of the line's resolved character widths plus `scale`. -/
theorem C6_amended (cfg : Config) (arr : List Nat) (color shadowcolor : JsColorArg) (s : Nat) :
    (drawTextShadow cfg arr color (some s) shadowcolor).1.width =
        cfg.charWidth * arr.length * s + 1
    ∧ (drawTextShadow cfg arr color (some s) shadowcolor).1.height = cfg.charHeight * s + 1
    ∧ ((drawTextShadow cfg arr color (some s) shadowcolor).1.ops).map opDest = [(s, s), (0, 0)]
    ∧ ((drawTextShadow cfg arr color (some s) shadowcolor).1.ops).map opTints =
        [[shadowcolor], [color]]
    ∧ (drawTextShadow cfg arr color (some s) shadowcolor).2 =
        (arr.map (getCharWidthFromCharCode cfg)).sum + s := by
  simp only [drawTextShadow, drawTextCanvas_ops, drawTextCanvas_snd, createBufferCanvas]
  simp [dtcOp_dest, dtcOp_tints]

/-- Counterexample to claim C7 as stated: with `charHeight = 8` and shadow
enabled, the second line's shadow buffer is blitted at vertical offset
`1 * getHeight(1) = 8`, not at the claimed `1 * 16 * 1 = 16` — the shadow
branch uses `getHeight` (`cellHeight`), not the fixed 16. -/
theorem C7_counterexample :
    ((drawTextLinesLoop cfgB (0, 0) (JsColorArg.color 0) 1 (some (JsColorArg.color 1))
        (createBufferCanvas 0 0) 0 [[65], [66]]).ops).map opDest = [(0, 0), (0, 8)]
    ∧ ((0, 8) : Nat × Nat) ≠ (0, 0 + 1 * 16 * 1) := by
  decide

/-- Claim C7 amended: in `drawText`'s per-line loop, without shadow line `i`
is placed at vertical offset `pos.y + i * 16 * size` (the fixed 16), while
with shadow enabled line `i`'s composite buffer is blitted at
`pos.y + i * getHeight(size)` (the configurable `charHeight`), so the two
branches agree only when `charHeight = 16`. -/
theorem C7_amended (cfg : Config) (pos : Nat × Nat) (color : JsColorArg) (size : Nat)
    (lines : List (List Nat)) :
    ((drawTextLinesLoop cfg pos color size none (createBufferCanvas 0 0) 0 lines).ops).map
        opDest = (List.range lines.length).map (fun i => (pos.1, pos.2 + i * 16 * size))
    ∧ ∀ sc : JsColorArg,
        ((drawTextLinesLoop cfg pos color size (some sc) (createBufferCanvas 0 0) 0
            lines).ops).map opDest =
          (List.range lines.length).map (fun i => (pos.1, pos.2 + i * getHeight cfg size)) := by
  constructor
  · rw [drawTextLinesLoop_none_dests]
    simp [createBufferCanvas, List.range_eq_range']
  · intro sc
    rw [drawTextLinesLoop_shadow_dests]
    simp [createBufferCanvas, List.range_eq_range']

/-- Claim C8: `getCharPosition` is total (it is a Lean function) and never
signals an error: with a truthy `charMap` not containing the character the
result is `(0, 0)`; with a truthy `charMap` containing it, the index is its
`charMap` position; with no (or an empty) `charMap` the index is the raw code;
and in the index cases the result is
`(charWidth * (index mod charsInRow), charHeight * (index div charsInRow))`. -/
theorem C8_getCharPosition_cases (cfg : Config) (code : Nat) :
    (∀ m, cfg.charMap = some m → charMapTruthy cfg.charMap = true → code % 65536 ∉ m →
        getCharPosition cfg code = (0, 0))
    ∧ (∀ m, cfg.charMap = some m → charMapTruthy cfg.charMap = true → code % 65536 ∈ m →
        getCharPosition cfg code =
          (cfg.charWidth * (m.indexOf (code % 65536) % cfg.charsInRow),
            cfg.charHeight * (m.indexOf (code % 65536) / cfg.charsInRow)))
    ∧ (charMapTruthy cfg.charMap = false →
        getCharPosition cfg code =
          (cfg.charWidth * (code % cfg.charsInRow), cfg.charHeight * (code / cfg.charsInRow))) := by
  refine ⟨?_, ?_, ?_⟩
  · intro m hm ht hmem
    rw [hm] at ht
    simp [getCharPosition, hm, ht, hmem]
  · intro m hm ht hmem
    rw [hm] at ht
    simp [getCharPosition, hm, ht, hmem]
  · intro ht
    simp [getCharPosition, ht]

/-- Witness for C8 at concrete inputs: an unmapped character under a truthy
`charMap` lands at `(0, 0)`, a mapped one at its map position, and with no
`charMap` the raw code indexes the atlas grid. -/
theorem C8_getCharPosition_cases_witness :
    getCharPosition cfgM 900 = (0, 0)
    ∧ getCharPosition cfgM 105 =
        (cfgM.charWidth * (([104, 105] : List Nat).indexOf (105 % 65536) % cfgM.charsInRow),
          cfgM.charHeight * (([104, 105] : List Nat).indexOf (105 % 65536) / cfgM.charsInRow))
    ∧ getCharPosition cfgA 300 =
        (cfgA.charWidth * (300 % cfgA.charsInRow), cfgA.charHeight * (300 / cfgA.charsInRow)) :=
  ⟨(C8_getCharPosition_cases cfgM 900).1 [104, 105] rfl (by decide) (by decide),
   (C8_getCharPosition_cases cfgM 105).2.1 [104, 105] rfl (by decide) (by decide),
   (C8_getCharPosition_cases cfgA 300).2.2 rfl⟩

/-- Claim C9: the last-text memoization is observationally transparent — after
any sequence of prior `wrapText` calls from a fresh engine, a `wrapText` call
returns exactly what a fresh engine with the same configuration would return
for the same arguments. -/
theorem C9_memo_transparent (cfg : Config) (calls : List (List Nat × Nat × Nat × Nat))
    (text : List Nat) (w0 w1 size : Nat) :
    (wrapText cfg (runCalls cfg initEngine calls) text w0 w1 size).1 =
      wrapTextPure cfg text w0 w1 size :=
  wrapText_fst cfg _ text w0 w1 size (EngineInv_run cfg calls initEngine EngineInv_init)

/-- Claim C10: the tint guard `typeof color !== 'undefined' || color !== null`
is true for every value (including `undefined` and `null`), so the `source-in`
solid fill is appended to the line buffer on every `drawTextCanvas` call —
no code path leaves glyph pixels untinted. -/
theorem C10_tint_unconditional (cfg : Config) (ctx : Buffer) (arr : List Nat)
    (pos : Nat × Nat) (color : JsColorArg) (size : Option Nat) :
    tintGuard color = true
    ∧ ((drawTextCanvas cfg ctx arr pos color size).1.ops).map opTints =
        ctx.ops.map opTints ++ [[color]] := by
  refine ⟨tintGuard_eq_true color, ?_⟩
  rw [drawTextCanvas_ops]
  simp [dtcOp_tints]

end PngFont
